import Mathlib

/-!
Verification of the genji table-reader core against its specification.

The repository fragment under verification consists of the table Reader
test suite (`src/table/table_test.go`), the shell options (`Options.validate`)
and the SQL parser options.  The Reader/GroupReader implementation and the
field codec are exercised by the tests but their source is not part of the
fragment, so they are modelled from the specification (and pinned by the
observable behavior the tests require).  `Options.validate` is translated
directly from its source.
-/

namespace Genji

/-- Error taxonomy of the spec (§7): decode errors, field lookup failure and
generic user errors produced by predicate/transform callbacks.  `user n`
gives a countable supply of distinct callback errors. -/
inductive Err where
  | fieldNotFound : Err
  | typeMismatch : Err
  | truncated : Err
  | user : Nat → Err
deriving DecidableEq

/-- Field type tags of the data model (§3): int64, float64, string, bool,
bytes, null. -/
inductive FieldType where
  | int64 : FieldType
  | float64 : FieldType
  | str : FieldType
  | boolean : FieldType
  | bytes : FieldType
  | null : FieldType
deriving DecidableEq

/-- Decoded scalar values.  A float64 value is modelled at bit level, by its
IEEE 754 binary64 bit pattern (a natural number below `2 ^ 64`): encoding
and decoding act on the bits exactly, and ordering is the IEEE 754 total
order read off the pattern (see `floatValLt`). -/
inductive Value where
  | vInt : Int → Value
  | vFloat : Nat → Value
  | vStr : String → Value
  | vBool : Bool → Value
  | vBytes : List Nat → Value
  | vNull : Value
deriving DecidableEq

/-- The type tag of a decoded value. -/
def typeOf : Value → FieldType
  | .vInt _ => .int64
  | .vFloat _ => .float64
  | .vStr _ => .str
  | .vBool _ => .boolean
  | .vBytes _ => .bytes
  | .vNull => .null

/-- Big-endian byte string of length `k` for a natural number `n < 256 ^ k`. -/
def beBytes : Nat → Nat → List Nat
  | 0, _ => []
  | k + 1, n => n / 256 ^ k :: beBytes k (n % 256 ^ k)

/-- Fold a big-endian byte string back into a natural number. -/
def fromBytes (bs : List Nat) : Nat :=
  bs.foldl (fun acc b => acc * 256 + b) 0

/-- Modelled from the spec: the int64 field encoding (the `field` package is
absent from src).  §4.1 requires the numeric encoding to round-trip and to
preserve ordering under raw byte-wise comparison; the standard such encoding
is the 8-byte big-endian image of the value offset by `2 ^ 63`. -/
def encodeInt64 (i : Int) : List Nat :=
  beBytes 8 (i + 2 ^ 63).toNat

/-- Modelled from the spec: int64 field decoding, inverse of `encodeInt64`;
fails with `Truncated` unless exactly 8 bytes are present. -/
def DecodeInt64 (bs : List Nat) : Except Err Int :=
  if bs.length = 8 then .ok ((fromBytes bs : Int) - 2 ^ 63) else .error .truncated

/-- The order-preserving key of a float64 bit pattern: a non-negative
pattern (sign bit clear) is offset above all negative ones; a negative
pattern (sign bit set) is complemented, so that more-negative floats get
smaller keys.  Under this key, unsigned order equals the IEEE 754 total
order of the represented values. -/
def floatKey (bits : Nat) : Nat :=
  if bits < 2 ^ 63 then bits + 2 ^ 63 else 2 ^ 64 - 1 - bits

/-- Modelled from the spec: the float64 field encoding (the `field` package
is absent from src).  §4.1 requires the numeric encodings to round-trip and
to preserve ordering under raw byte-wise comparison: the 8-byte big-endian
image of the order-preserving key of the bit pattern. -/
def encodeFloat64 (bits : Nat) : List Nat :=
  beBytes 8 (floatKey bits)

/-- The IEEE 754 total order on binary64 bit patterns, defined from sign and
magnitude: a sign-set pattern is below every sign-clear pattern; two
sign-clear patterns compare as their bit patterns (which ascend with the
represented magnitude for non-NaN doubles); two sign-set patterns compare
reversed.  On non-NaN, non-zero values this agrees with the usual float
comparison; it additionally places -0.0 below +0.0 and orders NaN patterns
at the extremes, as IEEE 754 totalOrder does. -/
def floatValLt (a b : Nat) : Bool :=
  if a / 2 ^ 63 = b / 2 ^ 63 then
    if a / 2 ^ 63 = 0 then decide (a < b) else decide (b < a)
  else decide (a / 2 ^ 63 = 1 ∧ b / 2 ^ 63 = 0)

/-- Modelled from the spec: the per-type value encoding (`encode(value, type)
-> bytes`, §4.1).  Integers and floats use their order-preserving 8-byte
encodings, strings are stored as their scalar codepoints, booleans as
one byte, byte strings verbatim, null as the empty string. -/
def encodeValue : Value → List Nat
  | .vInt i => encodeInt64 i
  | .vFloat bits => encodeFloat64 bits
  | .vStr s => s.toList.map Char.toNat
  | .vBool b => [if b then 1 else 0]
  | .vBytes bs => bs
  | .vNull => []

/-- Modelled from the spec: the per-type value decoding (`decode(bytes, type)
-> value`, §4.1), failing with `Truncated` when fewer or more bytes are
present than the type admits. -/
def decodeValue : FieldType → List Nat → Except Err Value
  | .int64, bs => (DecodeInt64 bs).map Value.vInt
  | .float64, bs =>
      if bs.length = 8 then
        .ok (.vFloat
          (if fromBytes bs < 2 ^ 63 then 2 ^ 64 - 1 - fromBytes bs
           else fromBytes bs - 2 ^ 63))
      else .error .truncated
  | .str, bs => .ok (.vStr (String.mk (bs.map Char.ofNat)))
  | .boolean, bs =>
      match bs with
      | [0] => .ok (.vBool false)
      | [1] => .ok (.vBool true)
      | _ => .error .truncated
  | .bytes, bs => .ok (.vBytes bs)
  | .null, bs => if bs = [] then .ok .vNull else .error .truncated

/-- Byte-wise (lexicographic) strict comparison of byte strings, as performed
on raw encodings. -/
def bytesLt : List Nat → List Nat → Bool
  | [], [] => false
  | [], _ :: _ => true
  | _ :: _, [] => false
  | a :: as, b :: bs => if a < b then true else if b < a then false else bytesLt as bs

/-- Well-formedness of a value: its numeric payload fits in 64 bits. -/
def ValueWF : Value → Prop
  | .vInt i => -(2 ^ 63) ≤ i ∧ i < 2 ^ 63
  | .vFloat bits => bits < 2 ^ 64
  | _ => True

instance : DecidablePred ValueWF := by
  intro v
  cases v <;> simp [ValueWF] <;> infer_instance

/-- A field: a named, typed, encoded scalar (§3). -/
structure Field where
  name : String
  typ : FieldType
  data : List Nat
deriving DecidableEq

/-- `field.NewInt64`: an int64 field holding the encoding of `i`. -/
def NewInt64 (name : String) (i : Int) : Field :=
  ⟨name, .int64, encodeInt64 i⟩

/-- `field.NewString`: a string field holding the encoding of `s`. -/
def NewString (name : String) (s : String) : Field :=
  ⟨name, .str, encodeValue (.vStr s)⟩

/-- A record: an ordered sequence of fields (`record.FieldBuffer`). -/
abbrev Rec := List Field

/-- `Record.Field(name)`: first field with the given name, or
`FieldNotFound` (§4.2). -/
def Rec.field : Rec → String → Except Err Field
  | [], _ => .error .fieldNotFound
  | f :: rest, n => if f.name = n then .ok f else Rec.field rest n

/-- `FieldBuffer.Set`: replace the first field with an equal name in place,
or append if absent (§4.2). -/
def Rec.set : Rec → Field → Rec
  | [], f => [f]
  | g :: rest, f => if g.name = f.name then f :: rest else g :: Rec.set rest f

/-- Modelled from the spec: the table Reader (§4.4; `table/table.go` is
absent from src).  A Reader is either Ok — it holds the records of its
source table — or Failed — its `err` slot is set.  A deterministic finite
source is its list of records. -/
structure Reader where
  records : List Rec
  err : Option Err
deriving DecidableEq

/-- `table.NewReader`: a Reader over a record store always starts Ok. -/
def NewReader (recs : List Rec) : Reader :=
  ⟨recs, none⟩

/-- One pass of `ForEach`-style iteration: returns the first error produced
by `visit` (iteration stops at that record) and the trace of records `visit`
was invoked on, in source order. -/
def iterate (visit : Rec → Option Err) : List Rec → Option Err × List Rec
  | [] => (none, [])
  | r :: rest =>
    match visit r with
    | some e => (some e, [r])
    | none =>
      let res := iterate visit rest
      (res.1, r :: res.2)

/-- Modelled from the spec: `Reader.ForEach` (§4.4).  On a Failed receiver it
returns the identical Failed Reader without calling `visit`; on an Ok
receiver it visits each source record in order and the first `visit` error
makes the returned Reader Failed. -/
def Reader.forEach (r : Reader) (visit : Rec → Option Err) : Reader :=
  match r.err with
  | some _ => r
  | none => ⟨r.records, (iterate visit r.records).1⟩

/-- The side-effect trace of `Reader.forEach`: the records `visit` is invoked
on.  Empty on a Failed receiver. -/
def Reader.forEachTrace (r : Reader) (visit : Rec → Option Err) : List Rec :=
  match r.err with
  | some _ => []
  | none => (iterate visit r.records).2

/-- Records kept by a filtering pass: those for which the predicate returns
`true`, cut off at the first predicate error. -/
def filterKept (p : Rec → Bool × Option Err) : List Rec → List Rec
  | [] => []
  | r :: rest =>
    match p r with
    | (_, some _) => []
    | (true, none) => r :: filterKept p rest
    | (false, none) => filterKept p rest

/-- Modelled from the spec and the tests of the repository: `Reader.Filter`.  The
tests (`TestReader/Filter/Error`) require `Err()` to be non-nil immediately
after constructing a Filter with an erroring predicate, so Filter evaluates
eagerly: it runs a `ForEach` pass over the source collecting the records the
predicate keeps; a predicate error makes the returned Reader Failed (keeping
the old source).  On a Failed receiver it returns it unchanged without
invoking the predicate. -/
def Reader.filter (r : Reader) (p : Rec → Bool × Option Err) : Reader :=
  match r.err with
  | some _ => r
  | none =>
    match (iterate (fun rec => (p rec).2) r.records).1 with
    | some e => ⟨r.records, some e⟩
    | none => ⟨filterKept p r.records, none⟩

/-- The records the predicate of `Reader.filter` is invoked on: the Filter
pass feeds each visited record to the predicate. -/
def Reader.filterTrace (r : Reader) (p : Rec → Bool × Option Err) : List Rec :=
  Reader.forEachTrace r (fun rec => (p rec).2)

/-- Records produced by a mapping pass, cut off at the first transform
error. -/
def mapKept (f : Rec → Except Err Rec) : List Rec → List Rec
  | [] => []
  | r :: rest =>
    match f r with
    | .error _ => []
    | .ok r2 => r2 :: mapKept f rest

/-- The error signal of a transform, as seen by the `ForEach` pass `Map`
runs. -/
def mapErrSignal (f : Rec → Except Err Rec) (rec : Rec) : Option Err :=
  match f rec with
  | .error e => some e
  | .ok _ => none

/-- Modelled from the spec and the tests of the repository: `Reader.Map`.  Like
Filter, the tests (`TestReader/Map/Error`) require eager evaluation: the
transform is applied to every source record at construction time; a
transform error makes the returned Reader Failed.  On a Failed receiver it
returns it unchanged without invoking the transform. -/
def Reader.map (r : Reader) (f : Rec → Except Err Rec) : Reader :=
  match r.err with
  | some _ => r
  | none =>
    match (iterate (mapErrSignal f) r.records).1 with
    | some e => ⟨r.records, some e⟩
    | none => ⟨mapKept f r.records, none⟩

/-- The records the transform of `Reader.map` is invoked on. -/
def Reader.mapTrace (r : Reader) (f : Rec → Except Err Rec) : List Rec :=
  Reader.forEachTrace r (mapErrSignal f)

/-- Modelled from the spec: `Reader.Count` (§4.4).  Terminal; on a Failed
receiver returns `(0, storedError)`; otherwise it forces a full pass with a
counting visitor, which never errors, and returns the number of records. -/
def Reader.count (r : Reader) : Nat × Option Err :=
  match r.err with
  | some e => (0, some e)
  | none => (r.records.length, none)

/-- A group partition under construction: keys in first-seen order, each with
the records routed to it, in encounter order. -/
def groupInsert (key : Value) (rec : Rec) :
    List (Value × List Rec) → List (Value × List Rec)
  | [] => [(key, [rec])]
  | (k, rs) :: rest =>
    if k = key then (k, rs ++ [rec]) :: rest else (k, rs) :: groupInsert key rec rest

/-- The decoded grouping key of a record: look up the field, decode its data
with its own declared type. -/
def groupKey (fieldName : String) (rec : Rec) : Except Err Value := do
  let f ← Rec.field rec fieldName
  decodeValue f.typ f.data

/-- One grouping pass: route each record into the group keyed by the decoded
value of its `fieldName` field; the first lookup/decode error aborts the
pass. -/
def groupRun (fieldName : String) :
    List Rec → List (Value × List Rec) → Except Err (List (Value × List Rec))
  | [], acc => .ok acc
  | r :: rest, acc =>
    match groupKey fieldName r with
    | .error e => .error e
    | .ok k => groupRun fieldName rest (groupInsert k r acc)

/-- Modelled from the spec: the GroupReader (§4.5; source absent from src):
an ordered sequence of member Readers, their keys, and a sticky error slot
of its own. -/
structure GroupReader where
  Readers : List Reader
  Keys : List Value := []
  err : Option Err := none
deriving DecidableEq

/-- Modelled from the spec: `Reader.GroupBy` (§4.4).  Forces one iteration;
each record is routed into the group keyed by the decoded form of its
`fieldName` field; groups appear in first-seen-key order and preserve
encounter order inside each group.  A lookup/decode error during the pass,
or a Failed receiver, yields a GroupReader whose own `err` is set. -/
def Reader.groupBy (r : Reader) (fieldName : String) : GroupReader :=
  match r.err with
  | some e => ⟨[], [], some e⟩
  | none =>
    match groupRun fieldName r.records [] with
    | .error e => ⟨[], [], some e⟩
    | .ok groups => ⟨groups.map (fun g => NewReader g.2), groups.map Prod.fst, none⟩

/-- Flattening of the members of a GroupReader in `Readers` order: the
concatenation of their records, or the error of the first Failed member
encountered. -/
def concatRun : List Reader → Except Err (List Rec)
  | [] => .ok []
  | r :: rest =>
    match r.err with
    | some e => .error e
    | none => (concatRun rest).map (r.records ++ ·)

/-- Modelled from the spec: `GroupReader.Concat` (§4.5).  Yields the
concatenation of the records of all member Readers in `Readers` order; if any
member is Failed the result is Failed with the error of the first Failed
member encountered during flattening. -/
def GroupReader.concat (g : GroupReader) : Reader :=
  match concatRun g.Readers with
  | .ok recs => ⟨recs, none⟩
  | .error e => ⟨[], some e⟩

/-- The record built by `createTable` for index `i` (table_test.go:18-23):
fields `id = i`, `name = "john-i"`, `age = i*10`, `group = i%3`. -/
def mkRecord (i : Nat) : Rec :=
  [NewInt64 "id" i,
   NewString "name" ("john-" ++ toString i),
   NewInt64 "age" (i * 10),
   NewInt64 "group" (i % 3)]

/-- `createTable` (table_test.go:14-27): a Reader over `size` records built
by `mkRecord`, in index order. -/
def createTable (size : Nat) : Reader :=
  NewReader ((List.range size).map mkRecord)

/-- The predicate of `TestReader/Filter` (table_test.go:63-73): decode the
`id` field and keep even ids; a lookup or decode failure is returned as the
error of the predicate. -/
def evenId (rec : Rec) : Bool × Option Err :=
  match Rec.field rec "id" with
  | .error e => (false, some e)
  | .ok f =>
    match DecodeInt64 f.data with
    | .error e => (false, some e)
    | .ok v => (decide (v % 2 = 0), none)

/-- The transform of `TestReader/Map` (table_test.go:116-128): copy the
fields of the record and `Set` the `age` field to twice its decoded value. -/
def doubleAge (rec : Rec) : Except Err Rec := do
  let f ← Rec.field rec "age"
  let age ← DecodeInt64 f.data
  pure (Rec.set rec (NewInt64 "age" (age * 2)))

/-- The decoded `age` field of a record, as read by the Map tests. -/
def ageOf (rec : Rec) : Except Err Int := do
  let f ← Rec.field rec "age"
  DecodeInt64 f.data

/-- The decoded `id` field of a record, as read by the ForEach/Filter
tests. -/
def idOf (rec : Rec) : Except Err Int := do
  let f ← Rec.field rec "id"
  DecodeInt64 f.data

/-- The decoded `group` field of a record, as read by the GroupBy test. -/
def groupOf (rec : Rec) : Except Err Value := groupKey "group" rec

/-- The GroupReader built by `TestReader/GroupBy/Ok` (table_test.go:185): the
10-record test source grouped by its `group` field. -/
def groupedTable : GroupReader := (createTable 10).groupBy "group"

/-- Shell options (shell.go): engine name and database path. -/
structure Options where
  Engine : String
  DBPath : String
deriving DecidableEq

/-- `Options.validate` (shell.go): when `Engine` is empty it defaults to
`"memory"` if `DBPath` is empty and to `"bolt"` otherwise; then any engine
other than `"bolt"`, `"badger"` or `"memory"` is rejected.  The Go method
mutates its receiver and returns an error; the model returns the updated
options together with the optional error message. -/
def Options.validate (o : Options) : Options × Option String :=
  let o2 :=
    if o.Engine = "" then
      if o.DBPath = "" then { o with Engine := "memory" }
      else { o with Engine := "bolt" }
    else o
  if o2.Engine = "bolt" ∨ o2.Engine = "badger" ∨ o2.Engine = "memory" then
    (o2, none)
  else
    (o2, some ("unsupported engine " ++ o2.Engine))

deriving instance DecidableEq for Except

/-! ### Helper lemmas -/

theorem beBytes_length (k : Nat) : ∀ n, (beBytes k n).length = k := by
  induction k with
  | zero => intro n; simp [beBytes]
  | succ k ih => intro n; simp [beBytes, ih]

theorem foldl_beBytes (k : Nat) :
    ∀ acc n, n < 256 ^ k →
      (beBytes k n).foldl (fun a b => a * 256 + b) acc = acc * 256 ^ k + n := by
  induction k with
  | zero =>
    intro acc n h
    have hn : n = 0 := by omega
    subst hn
    simp [beBytes]
  | succ k ih =>
    intro acc n h
    have hB : 0 < 256 ^ k := pow_pos (by norm_num) k
    have hmod : n % 256 ^ k < 256 ^ k := Nat.mod_lt _ hB
    simp only [beBytes, List.foldl]
    rw [ih _ _ hmod]
    conv_rhs => rw [← Nat.div_add_mod n (256 ^ k)]
    ring

theorem fromBytes_beBytes (k n : Nat) (h : n < 256 ^ k) :
    fromBytes (beBytes k n) = n := by
  have := foldl_beBytes k 0 n h
  simpa [fromBytes] using this

theorem bytesLt_beBytes (k : Nat) :
    ∀ n m, n < 256 ^ k → m < 256 ^ k →
      (bytesLt (beBytes k n) (beBytes k m) = true ↔ n < m) := by
  induction k with
  | zero =>
    intro n m hn hm
    have hn0 : n = 0 := by omega
    have hm0 : m = 0 := by omega
    subst hn0
    subst hm0
    simp [beBytes, bytesLt]
  | succ k ih =>
    intro n m hn hm
    have hB : 0 < 256 ^ k := pow_pos (by norm_num) k
    have hnm : n % 256 ^ k < 256 ^ k := Nat.mod_lt _ hB
    have hmm : m % 256 ^ k < 256 ^ k := Nat.mod_lt _ hB
    simp only [beBytes, bytesLt]
    by_cases h1 : n / 256 ^ k < m / 256 ^ k
    · have : n < m := Nat.lt_of_div_lt_div h1
      simp [h1, this]
    · by_cases h2 : m / 256 ^ k < n / 256 ^ k
      · have : m < n := Nat.lt_of_div_lt_div h2
        simp [h1, h2]
        omega
      · have hd : n / 256 ^ k = m / 256 ^ k := by omega
        simp only [if_neg h1, if_neg h2]
        rw [ih _ _ hnm hmm]
        constructor
        · intro hlt
          calc n = 256 ^ k * (n / 256 ^ k) + n % 256 ^ k := (Nat.div_add_mod n (256 ^ k)).symm
            _ < 256 ^ k * (m / 256 ^ k) + m % 256 ^ k := by rw [hd]; omega
            _ = m := Nat.div_add_mod m (256 ^ k)
        · intro hlt
          by_contra hge
          have : m % 256 ^ k ≤ n % 256 ^ k := by omega
          have : m ≤ n := by
            calc m = 256 ^ k * (m / 256 ^ k) + m % 256 ^ k := (Nat.div_add_mod m (256 ^ k)).symm
              _ ≤ 256 ^ k * (n / 256 ^ k) + n % 256 ^ k := by rw [hd]; omega
              _ = n := Nat.div_add_mod n (256 ^ k)
          omega

theorem iterate_of_visit_none (visit : Rec → Option Err) (hv : ∀ x, visit x = none) :
    ∀ l, iterate visit l = (none, l) := by
  intro l
  induction l with
  | nil => rfl
  | cons r rest ih => simp [iterate, hv r, ih]

theorem filterKept_of_pure (p : Rec → Bool) :
    ∀ l, filterKept (fun r => (p r, none)) l = l.filter p := by
  intro l
  induction l with
  | nil => rfl
  | cons r rest ih =>
    by_cases hp : p r <;> simp [filterKept, hp, ih, List.filter]

theorem concatRun_of_ok (l : List Reader) (h : ∀ r ∈ l, r.err = none) :
    concatRun l = .ok ((l.map Reader.records).flatten) := by
  induction l with
  | nil => rfl
  | cons r rest ih =>
    have hr : r.err = none := h r (by simp)
    have hrest : ∀ q ∈ rest, q.err = none := fun q hq => h q (by simp [hq])
    simp [concatRun, hr, ih hrest, Except.map]

theorem concatRun_of_failed (pre : List Reader) (r : Reader) (post : List Reader)
    (hpre : ∀ q ∈ pre, q.err = none) (e : Err) (hr : r.err = some e) :
    concatRun (pre ++ r :: post) = .error e := by
  induction pre with
  | nil => simp [concatRun, hr]
  | cons q rest ih =>
    have hq : q.err = none := hpre q (by simp)
    have hrest : ∀ x ∈ rest, x.err = none := fun x hx => hpre x (by simp [hx])
    simp [concatRun, hq, ih hrest, Except.map]

theorem decodeInt64_encodeInt64 (i : Int) (h1 : -(2 ^ 63) ≤ i) (h2 : i < 2 ^ 63) :
    DecodeInt64 (encodeInt64 i) = .ok i := by
  have hpow : (2 : Int) ^ 63 = 9223372036854775808 := by norm_num
  have h256 : (256 : Nat) ^ 8 = 18446744073709551616 := by norm_num
  have hnat : (i + 2 ^ 63).toNat < 256 ^ 8 := by rw [h256]; omega
  unfold DecodeInt64 encodeInt64
  rw [if_pos (beBytes_length 8 _)]
  rw [fromBytes_beBytes 8 _ hnat]
  congr 1
  omega

theorem floatKey_inv (bits : Nat) (h : bits < 2 ^ 64) :
    (if floatKey bits < 2 ^ 63 then 2 ^ 64 - 1 - floatKey bits
     else floatKey bits - 2 ^ 63) = bits := by
  unfold floatKey
  by_cases hb : bits < 2 ^ 63
  · rw [if_pos hb]
    rw [if_neg (show ¬ bits + 2 ^ 63 < 2 ^ 63 by omega)]
    omega
  · rw [if_neg hb]
    rw [if_pos (show 2 ^ 64 - 1 - bits < 2 ^ 63 by omega)]
    omega

theorem decodeFloat64_encodeFloat64 (bits : Nat) (h : bits < 2 ^ 64) :
    decodeValue .float64 (encodeFloat64 bits) = .ok (.vFloat bits) := by
  have h63 : (2 : Nat) ^ 63 = 9223372036854775808 := by norm_num
  have h64 : (2 : Nat) ^ 64 = 18446744073709551616 := by norm_num
  have h256 : (256 : Nat) ^ 8 = 18446744073709551616 := by norm_num
  have hkey : floatKey bits < 256 ^ 8 := by
    unfold floatKey
    split <;> omega
  simp only [decodeValue, encodeFloat64, beBytes_length, eq_self_iff_true, if_true]
  rw [fromBytes_beBytes 8 _ hkey]
  rw [floatKey_inv bits h]

theorem floatKey_lt_iff (a b : Nat) (ha : a < 2 ^ 64) (hb : b < 2 ^ 64) :
    (floatKey a < floatKey b ↔ floatValLt a b = true) := by
  have h63 : (2 : Nat) ^ 63 = 9223372036854775808 := by norm_num
  have h64 : (2 : Nat) ^ 64 = 18446744073709551616 := by norm_num
  rw [h64] at ha hb
  unfold floatKey floatValLt
  rw [h63, h64]
  split_ifs <;> simp only [decide_eq_true_eq] <;> omega

theorem encodeFloat64_order (a b : Nat) (ha : a < 2 ^ 64) (hb : b < 2 ^ 64) :
    bytesLt (encodeFloat64 a) (encodeFloat64 b) = floatValLt a b := by
  have h64 : (2 : Nat) ^ 64 = 18446744073709551616 := by norm_num
  have h256 : (256 : Nat) ^ 8 = 18446744073709551616 := by norm_num
  have hka : floatKey a < 256 ^ 8 := by
    unfold floatKey
    split <;> omega
  have hkb : floatKey b < 256 ^ 8 := by
    unfold floatKey
    split <;> omega
  have hiff := (bytesLt_beBytes 8 (floatKey a) (floatKey b) hka hkb).trans
    (floatKey_lt_iff a b ha hb)
  unfold encodeFloat64
  cases hfv : floatValLt a b
  · rw [← Bool.not_eq_true]
    intro hcontra
    have := hiff.mp hcontra
    rw [hfv] at this
    exact Bool.false_ne_true this
  · exact hiff.mpr hfv

/-! ### Claim theorems -/

/-- Claim C1 (sticky error propagation): for every Reader whose `Err()` is
non-nil, applying ForEach, Filter or Map returns a Reader with the same
`Err()`, and no visitor, predicate or transform callback is invoked on the
Failed Reader (all side-effect traces are empty). -/
theorem sticky_error_propagation (recs : List Rec) (e : Err) (v : Rec → Option Err)
    (p : Rec → Bool × Option Err) (f : Rec → Except Err Rec) :
    let r : Reader := ⟨recs, some e⟩
    r.forEach v = r ∧ (r.forEach v).err = some e ∧ r.forEachTrace v = [] ∧
    r.filter p = r ∧ (r.filter p).err = some e ∧ r.filterTrace p = [] ∧
    r.map f = r ∧ (r.map f).err = some e ∧ r.mapTrace f = [] :=
  ⟨rfl, rfl, rfl, rfl, rfl, rfl, rfl, rfl, rfl⟩

/-- Claim C2 (Reader immutability): operators take the Reader by value and
return a brand-new Reader; the `Err()` of the receiver stays nil and its
`ForEach` still visits the exact same sequence of records, while only the
Reader returned by an erroring `ForEach` becomes Failed. -/
theorem reader_immutable (recs : List Rec) (e : Err) (visit : Rec → Option Err)
    (hv : ∀ x, visit x = none) :
    (NewReader recs).err = none ∧
    (NewReader recs).forEachTrace visit = recs ∧
    (recs ≠ [] → ((NewReader recs).forEach (fun _ => some e)).err = some e) := by
  refine ⟨rfl, ?_, ?_⟩
  · simp [Reader.forEachTrace, NewReader, iterate_of_visit_none visit hv]
  · intro hne
    obtain ⟨r, rest, rfl⟩ := List.exists_cons_of_ne_nil hne
    simp [Reader.forEach, NewReader, iterate]

/-- Witness for C2 at a concrete two-record source. -/
theorem reader_immutable_witness :
    (NewReader [mkRecord 0, mkRecord 1]).err = none ∧
    (NewReader [mkRecord 0, mkRecord 1]).forEachTrace (fun _ => none)
      = [mkRecord 0, mkRecord 1] ∧
    ([mkRecord 0, mkRecord 1] ≠ ([] : List Rec) →
      ((NewReader [mkRecord 0, mkRecord 1]).forEach (fun _ => some (.user 0))).err
        = some (.user 0)) :=
  reader_immutable [mkRecord 0, mkRecord 1] (.user 0) (fun _ => none) (fun _ => rfl)

/-- Claim C3, counterexample: the claim states that `Err()` on an unconsumed
Filter of an Ok Reader is nil even when the predicate would fail; on the
modelled code (pinned by `TestReader/Filter/Error`), constructing the Filter
with an erroring predicate already sets the error. -/
theorem filter_err_at_construction :
    ((createTable 1).filter (fun _ => (false, some (.user 0)))).err ≠ none := by
  decide

/-- Claim C3 as amended: Filter and Map evaluate eagerly at construction
time; on an Ok, non-empty source an erroring predicate or transform makes
the returned Reader Failed immediately, and the callback is invoked during
construction (its trace is non-empty). -/
theorem filter_map_eager (recs : List Rec) (e : Err) (hne : recs ≠ []) :
    ((NewReader recs).filter (fun _ => (false, some e))).err = some e ∧
    ((NewReader recs).map (fun _ => .error e)).err = some e ∧
    (NewReader recs).filterTrace (fun _ => (false, some e)) ≠ [] ∧
    (NewReader recs).mapTrace (fun _ => .error e) ≠ [] := by
  obtain ⟨r, rest, rfl⟩ := List.exists_cons_of_ne_nil hne
  refine ⟨?_, ?_, ?_, ?_⟩ <;>
    simp [Reader.filter, Reader.map, Reader.filterTrace, Reader.mapTrace,
      Reader.forEachTrace, NewReader, iterate, mapErrSignal]

/-- Witness for the amended C3 at a concrete one-record source. -/
theorem filter_map_eager_witness :
    ((NewReader [mkRecord 0]).filter (fun _ => (false, some (.user 1)))).err
      = some (.user 1) ∧
    ((NewReader [mkRecord 0]).map (fun _ => .error (.user 1))).err = some (.user 1) ∧
    (NewReader [mkRecord 0]).filterTrace (fun _ => (false, some (.user 1))) ≠ [] ∧
    (NewReader [mkRecord 0]).mapTrace (fun _ => .error (.user 1)) ≠ [] :=
  filter_map_eager [mkRecord 0] (.user 1) (by simp)

/-- Claim C4 (order preservation): ForEach visits the source records in
index order, and Filter followed by ForEach visits exactly the sub-sequence
on which the predicate held, in original relative order. -/
theorem order_preservation (recs : List Rec) (visit : Rec → Option Err)
    (p : Rec → Bool) (hv : ∀ x, visit x = none) :
    (NewReader recs).forEachTrace visit = recs ∧
    ((NewReader recs).filter (fun r => (p r, none))).err = none ∧
    ((NewReader recs).filter (fun r => (p r, none))).records = recs.filter p ∧
    ((NewReader recs).filter (fun r => (p r, none))).forEachTrace visit
      = recs.filter p := by
  have hiter := iterate_of_visit_none visit hv
  have hpred : iterate (fun _ => (none : Option Err)) recs = (none, recs) :=
    iterate_of_visit_none _ (fun _ => rfl) recs
  refine ⟨?_, ?_, ?_, ?_⟩
  · simp [Reader.forEachTrace, NewReader, hiter]
  · simp [Reader.filter, NewReader, hpred]
  · simp [Reader.filter, NewReader, hpred, filterKept_of_pure]
  · simp [Reader.filter, NewReader, hpred, filterKept_of_pure,
      Reader.forEachTrace, hiter]

/-- Witness for C4 at a concrete three-record source with an even-id
predicate. -/
theorem order_preservation_witness :
    (NewReader [mkRecord 0, mkRecord 1, mkRecord 2]).forEachTrace (fun _ => none)
      = [mkRecord 0, mkRecord 1, mkRecord 2] ∧
    ((NewReader [mkRecord 0, mkRecord 1, mkRecord 2]).filter
      (fun r => ((evenId r).1, none))).err = none ∧
    ((NewReader [mkRecord 0, mkRecord 1, mkRecord 2]).filter
      (fun r => ((evenId r).1, none))).records
      = [mkRecord 0, mkRecord 1, mkRecord 2].filter (fun r => (evenId r).1) ∧
    ((NewReader [mkRecord 0, mkRecord 1, mkRecord 2]).filter
      (fun r => ((evenId r).1, none))).forEachTrace (fun _ => none)
      = [mkRecord 0, mkRecord 1, mkRecord 2].filter (fun r => (evenId r).1) :=
  order_preservation [mkRecord 0, mkRecord 1, mkRecord 2] (fun _ => none)
    (fun r => (evenId r).1) (fun _ => rfl)

/-- Claim C5 (Count contract): `Count()` on an Ok Reader forces a full pass
and returns the number of records with a nil error; on a Failed Reader it
returns `(0, storedError)`; on the unfiltered 10-record test source it
returns 10, and after filtering even ids over ids 0..9 it returns 5. -/
theorem count_contract (recs : List Rec) (e : Err) :
    (NewReader recs).count = (recs.length, none) ∧
    (Reader.mk recs (some e)).count = (0, some e) ∧
    (createTable 10).count = (10, none) ∧
    ((createTable 10).filter evenId).count = (5, none) :=
  ⟨rfl, rfl, by decide, by decide⟩

/-- Claim C6 (Map is non-destructive): mapping the age-doubling transform
over the 10-record test source (whose record `i` has `age = i*10`) yields a
Reader whose record `i` has `age = i*20`, while the original source still
decodes `age = i*10` at every record. -/
theorem map_nondestructive :
    ((createTable 10).map doubleAge).err = none ∧
    ((createTable 10).map doubleAge).records.map ageOf
      = (List.range 10).map (fun i => .ok ((i : Int) * 20)) ∧
    (createTable 10).records.map ageOf
      = (List.range 10).map (fun i => .ok ((i : Int) * 10)) :=
  ⟨by decide, by decide, by decide⟩

/-- Claim C7 (GroupBy partition correctness): grouping the 10-record test
source (whose `group` field is `i % 3`) by `"group"` yields exactly 3
groups; every record of each group decodes its `group` field to that
key of that group; and concatenating all groups reproduces exactly 10 records,
the same multiset as the source. -/
theorem groupby_partition :
    (groupedTable.Readers.length = 3) ∧ groupedTable.err = none ∧
    groupedTable.Keys = [.vInt 0, .vInt 1, .vInt 2] ∧
    (∀ gr ∈ groupedTable.Readers.zip groupedTable.Keys,
      ∀ rec ∈ gr.1.records, groupOf rec = .ok gr.2) ∧
    groupedTable.concat.count = (10, none) ∧
    Multiset.ofList groupedTable.concat.records
      = Multiset.ofList (createTable 10).records := by
  refine ⟨by decide, by decide, by decide, by decide, by decide, by decide⟩

/-- Claim C8 (Concat contract): flattening a GroupReader whose members are
all Ok yields the concatenation of the member records in `Readers` order,
with `Count()` the sum of the member sizes (5 for member sizes 2 and 3);
if a member is Failed, the result is Failed with the error of the first
Failed member encountered during flattening. -/
theorem concat_contract (g : GroupReader) :
    ((∀ r ∈ g.Readers, r.err = none) →
        g.concat.records = (g.Readers.map Reader.records).flatten ∧
        g.concat.err = none ∧
        g.concat.count = ((g.Readers.map (fun r => r.records.length)).sum, none)) ∧
    (∀ pre r post e, g.Readers = pre ++ r :: post → (∀ q ∈ pre, q.err = none) →
        r.err = some e → g.concat.err = some e) ∧
    (GroupReader.mk [createTable 2, createTable 3] [] none).concat.count
      = (5, none) := by
  refine ⟨?_, ?_, by decide⟩
  · intro h
    have hrun := concatRun_of_ok g.Readers h
    refine ⟨?_, ?_, ?_⟩
    · simp [GroupReader.concat, hrun]
    · simp [GroupReader.concat, hrun]
    · simp [GroupReader.concat, hrun, Reader.count, List.length_flatten,
        List.map_map, Function.comp_def]
  · intro pre r post e hsplit hpre hr
    have hrun := concatRun_of_failed pre r post hpre e hr
    simp [GroupReader.concat, hsplit, hrun]

/-- Witness for C8: the all-Ok case at members of sizes 2 and 3, and the
Failed-member case at a singleton Failed member. -/
theorem concat_contract_witness :
    (GroupReader.mk [createTable 2, createTable 3] [] none).concat.records
      = ([createTable 2, createTable 3].map Reader.records).flatten ∧
    (GroupReader.mk [Reader.mk [] (some (.user 3))] [] none).concat.err
      = some (.user 3) := by
  constructor
  · exact ((concat_contract ⟨[createTable 2, createTable 3], [], none⟩).1 (by decide)).1
  · exact (concat_contract ⟨[Reader.mk [] (some (.user 3))], [], none⟩).2.1
      [] (Reader.mk [] (some (.user 3))) [] (.user 3) rfl (by simp) rfl

/-- Claim C9 (codec round-trip and order preservation): for every supported
value of every supported type — int64, float64 (at bit level), string,
bool, bytes, null — decoding the encoding at the own declared type of the
value returns the value; and for any two values of either numeric type,
byte-wise comparison of their encodings orders exactly as the values
themselves (integer order for int64, the IEEE 754 total order `floatValLt`
for float64). -/
theorem codec_roundtrip_order :
    (∀ v : Value, ValueWF v → decodeValue (typeOf v) (encodeValue v) = .ok v) ∧
    (∀ i j : Int, -(2 ^ 63) ≤ i → i < 2 ^ 63 → -(2 ^ 63) ≤ j → j < 2 ^ 63 →
      (bytesLt (encodeInt64 i) (encodeInt64 j) = true ↔ i < j)) ∧
    (∀ a b : Nat, a < 2 ^ 64 → b < 2 ^ 64 →
      bytesLt (encodeFloat64 a) (encodeFloat64 b) = floatValLt a b) := by
  refine ⟨?_, ?_, fun a b ha hb => encodeFloat64_order a b ha hb⟩
  · intro v hv
    match v with
    | .vInt i =>
      obtain ⟨h1, h2⟩ := hv
      simp [typeOf, encodeValue, decodeValue, decodeInt64_encodeInt64 i h1 h2,
        Except.map]
    | .vFloat bits =>
      have hb : bits < 2 ^ 64 := hv
      simpa [typeOf, encodeValue] using decodeFloat64_encodeFloat64 bits hb
    | .vStr s =>
      have hmap : (s.toList.map Char.toNat).map Char.ofNat = s.toList := by
        rw [List.map_map]
        have hcomp : (Char.ofNat ∘ Char.toNat) = id := funext fun c => Char.ofNat_toNat c
        rw [hcomp, List.map_id]
      simp only [typeOf, encodeValue, decodeValue, hmap]
      cases s
      rfl
    | .vBool b => cases b <;> rfl
    | .vBytes bs => rfl
    | .vNull => rfl
  · intro i j hi1 hi2 hj1 hj2
    have hpow : (2 : Int) ^ 63 = 9223372036854775808 := by norm_num
    have h256 : (256 : Nat) ^ 8 = 18446744073709551616 := by norm_num
    have hni : (i + 2 ^ 63).toNat < 256 ^ 8 := by rw [h256]; omega
    have hnj : (j + 2 ^ 63).toNat < 256 ^ 8 := by rw [h256]; omega
    unfold encodeInt64
    rw [bytesLt_beBytes 8 _ _ hni hnj]
    omega

/-- Witness for C9: round-trip at the value 5 and byte-order at -3 and 7. -/
theorem codec_roundtrip_order_witness :
    decodeValue (typeOf (.vInt 5)) (encodeValue (.vInt 5)) = .ok (.vInt 5) ∧
    decodeValue (typeOf (.vFloat 3)) (encodeValue (.vFloat 3)) = .ok (.vFloat 3) ∧
    (bytesLt (encodeInt64 (-3)) (encodeInt64 7) = true ↔ (-3 : Int) < 7) ∧
    bytesLt (encodeFloat64 (2 ^ 63 + 5)) (encodeFloat64 3)
      = floatValLt (2 ^ 63 + 5) 3 := by
  refine ⟨?_, ?_, ?_, ?_⟩
  · exact codec_roundtrip_order.1 (.vInt 5) (by decide)
  · exact codec_roundtrip_order.1 (.vFloat 3) (by decide)
  · exact codec_roundtrip_order.2.1 (-3) 7 (by norm_num) (by norm_num)
      (by norm_num) (by norm_num)
  · exact codec_roundtrip_order.2.2 (2 ^ 63 + 5) 3 (by norm_num) (by norm_num)

/-- Claim C10 (Options.validate): with an empty Engine, validate defaults it
to "memory" when DBPath is empty and to "bolt" otherwise (and then
succeeds); a caller-supplied non-empty Engine is left unchanged; and
validate returns an error exactly when the possibly-defaulted Engine is not
one of "bolt", "badger" or "memory". -/
theorem options_validate_contract (o : Options) :
    (o.Engine = "" → o.DBPath = "" →
        o.validate.1 = { o with Engine := "memory" } ∧ o.validate.2 = none) ∧
    (o.Engine = "" → o.DBPath ≠ "" →
        o.validate.1 = { o with Engine := "bolt" } ∧ o.validate.2 = none) ∧
    (o.Engine ≠ "" → o.validate.1 = o ∧
        (o.validate.2 = none ↔
          (o.Engine = "bolt" ∨ o.Engine = "badger" ∨ o.Engine = "memory"))) ∧
    (o.validate.2 = none ↔
      (o.validate.1.Engine = "bolt" ∨ o.validate.1.Engine = "badger" ∨
        o.validate.1.Engine = "memory")) := by
  unfold Options.validate
  by_cases h1 : o.Engine = "" <;> by_cases h2 : o.DBPath = "" <;>
    simp [h1, h2] <;> split_ifs <;> simp_all

/-- Witness for C10 at the empty, path-only, and unsupported-engine
options. -/
theorem options_validate_contract_witness :
    (Options.validate ⟨"", ""⟩).1 = ⟨"memory", ""⟩ ∧
    (Options.validate ⟨"", ""⟩).2 = none ∧
    (Options.validate ⟨"", "db"⟩).1 = ⟨"bolt", "db"⟩ ∧
    (Options.validate ⟨"weird", ""⟩).1 = ⟨"weird", ""⟩ ∧
    ¬ ((Options.validate ⟨"weird", ""⟩).2 = none) := by
  refine ⟨?_, ?_, ?_, ?_, ?_⟩
  · exact ((options_validate_contract ⟨"", ""⟩).1 rfl rfl).1
  · exact ((options_validate_contract ⟨"", ""⟩).1 rfl rfl).2
  · exact ((options_validate_contract ⟨"", "db"⟩).2.1 rfl (by decide)).1
  · exact ((options_validate_contract ⟨"weird", ""⟩).2.2.1 (by decide)).1
  · intro hnone
    have := ((options_validate_contract ⟨"weird", ""⟩).2.2.1 (by decide)).2.mp hnone
    revert this
    decide

end Genji
